import Mathlib

/-!
Verification of the SM3 hash implementation (sm3.c / sm3.cpp).

The C sources are shallowly embedded: 32-bit words are natural numbers
kept below 2^32 by explicit masking, byte buffers are lists of naturals,
and the streaming context `SM3_CTX` is a structure.  Loops become folds
or structural recursion mirroring the C control flow.
-/

namespace SM3

/-- Modulus for 32-bit words. -/
def M32 : Nat := 4294967296

/-- Modulus for 64-bit words (the C `uint64_t` bit length counter). -/
def M64 : Nat := 18446744073709551616

/-- Wraparound 32-bit addition, the semantics of C `+` on `uint32_t`. -/
def add32 (a b : Nat) : Nat := (a + b) % M32

/-- Left rotation of a 32-bit word.  This models the C macro
`ROTLEFT(x,n) = ((x) << (n)) | ((x) >> (32 - (n)))` as realized on the
target (x86 shift counts are taken modulo 32).  Every use of the macro in
the sources has a constant amount below 32 except the round-constant
rotation `ROTLEFT(SM3_T[j], j)`, whose literal C semantics is analysed
separately with `ROTLEFT_c` below. -/
def rotl (x n : Nat) : Nat :=
  ((x <<< (n % 32)) ||| (x >>> (32 - n % 32))) % M32

/-- C left shift on `uint32_t` with its undefined-behaviour case made
explicit: a shift count of 32 or more is undefined (C11 6.5.7p3). -/
def shl32c (x : Nat) (n : Int) : Option Nat :=
  if 0 ≤ n ∧ n < 32 then some ((x <<< n.toNat) % M32) else none

/-- C right shift on `uint32_t` with its undefined-behaviour case made
explicit: a negative count or a count of 32 or more is undefined. -/
def shr32c (x : Nat) (n : Int) : Option Nat :=
  if 0 ≤ n ∧ n < 32 then some (x >>> n.toNat) else none

/-- The literal C macro `ROTLEFT(x,n) = ((x) << (n)) | ((x) >> (32 - (n)))`
with C shift semantics: undefined (none) whenever either shift count falls
outside [0,32). -/
def ROTLEFT_c (x : Nat) (n : Nat) : Option Nat :=
  match shl32c x n, shr32c x (32 - (n : Int)) with
  | some a, some b => some (a ||| b)
  | _, _ => none

/-- Initial vector from sm3.c (`SM3_IV`). -/
def SM3_IV : List Nat :=
  [0x7380166f, 0x4914b2b9, 0x172442d7, 0xda8a0600,
   0xa96f30bc, 0x163138aa, 0xe38dee4d, 0xb0fb0e4e]

/-- Round constants from sm3.c (`SM3_T`): the 64-entry table holds
`0x79cc4519` in entries 0..15 and `0x7a879d8a` in entries 16..63. -/
def SM3_T (j : Nat) : Nat :=
  if j < 16 then 0x79cc4519 else 0x7a879d8a

/-- Boolean function `ff` from sm3.c: XOR for rounds 0..15, majority
afterwards (the C guard `j >= 0 && j <= 15` is `j ≤ 15` on naturals). -/
def ff (x y z j : Nat) : Nat :=
  if j ≤ 15 then x ^^^ y ^^^ z else (x &&& y) ||| (x &&& z) ||| (y &&& z)

/-- Boolean function `gg` from sm3.c: XOR for rounds 0..15, choice
afterwards; C `~x` on `uint32_t` is XOR with the all-ones word. -/
def gg (x y z j : Nat) : Nat :=
  if j ≤ 15 then x ^^^ y ^^^ z else (x &&& y) ||| ((x ^^^ 0xffffffff) &&& z)

/-- Permutation `p0` from sm3.c. -/
def p0 (x : Nat) : Nat := x ^^^ rotl x 9 ^^^ rotl x 17

/-- Permutation `p1` from sm3.c. -/
def p1 (x : Nat) : Nat := x ^^^ rotl x 15 ^^^ rotl x 23

/-- Big-endian load of message word `j` from a 64-byte block, as in
sm3.c lines 135-141. -/
def beWord (blk : List Nat) (j : Nat) : Nat :=
  (blk.getD (j * 4) 0 <<< 24) ||| (blk.getD (j * 4 + 1) 0 <<< 16) |||
  (blk.getD (j * 4 + 2) 0 <<< 8) ||| blk.getD (j * 4 + 3) 0

/-- The first 16 schedule words `W[0..15]` (sm3.c step 1). -/
def loadW (blk : List Nat) : List Nat :=
  (List.range 16).map (beWord blk)

/-- One iteration of the extension loop (sm3.c lines 144-147): append
`W[j]` computed from the words already present. -/
def extendStep (w : List Nat) (j : Nat) : List Nat :=
  w ++ [p1 (w.getD (j - 16) 0 ^^^ w.getD (j - 9) 0 ^^^ rotl (w.getD (j - 3) 0) 15) ^^^
        rotl (w.getD (j - 13) 0) 7 ^^^ w.getD (j - 6) 0]

/-- The full 68-word schedule `W[0..67]` built by the extension loop
`for (j = 16; j < 68; j++)`. -/
def Wlist (blk : List Nat) : List Nat :=
  (List.range' 16 52).foldl extendStep (loadW blk)

/-- The derived words `W1[0..63]` (sm3.c lines 150-152). -/
def W1list (w : List Nat) : List Nat :=
  (List.range 64).map (fun j => w.getD j 0 ^^^ w.getD (j + 4) 0)

/-- The eight working registers of the compression rounds. -/
structure Regs where
  A : Nat
  B : Nat
  C : Nat
  D : Nat
  E : Nat
  F : Nat
  G : Nat
  H : Nat
  deriving Repr, DecidableEq

/-- One compression round (sm3.c lines 167-186): the right-hand sides all
read the round-entry register values, exactly as the C assignment order
guarantees. -/
def roundStep (w w1 : List Nat) (r : Regs) (j : Nat) : Regs :=
  let SS1 := rotl (add32 (add32 (rotl r.A 12) r.E) (rotl (SM3_T j) j)) 7
  let SS2 := SS1 ^^^ rotl r.A 12
  let TT1 := add32 (add32 (add32 (ff r.A r.B r.C j) r.D) SS2) (w1.getD j 0)
  let TT2 := add32 (add32 (add32 (gg r.E r.F r.G j) r.H) SS1) (w.getD j 0)
  { A := TT1, B := r.A, C := rotl r.B 9, D := r.C,
    E := p0 TT2, F := r.E, G := rotl r.F 19, H := r.G }

/-- The compression function `sm3_compress` of sm3.c: message expansion,
64 rounds from the current state, then XOR-combination with it. -/
def sm3_compress (st : List Nat) (blk : List Nat) : List Nat :=
  let w := Wlist blk
  let w1 := W1list w
  let r0 : Regs := { A := st.getD 0 0, B := st.getD 1 0, C := st.getD 2 0, D := st.getD 3 0,
                     E := st.getD 4 0, F := st.getD 5 0, G := st.getD 6 0, H := st.getD 7 0 }
  let r := (List.range 64).foldl (roundStep w w1) r0
  [st.getD 0 0 ^^^ r.A, st.getD 1 0 ^^^ r.B, st.getD 2 0 ^^^ r.C, st.getD 3 0 ^^^ r.D,
   st.getD 4 0 ^^^ r.E, st.getD 5 0 ^^^ r.F, st.getD 6 0 ^^^ r.G, st.getD 7 0 ^^^ r.H]

/-- The streaming hash context `SM3_CTX` of sm3.h: 8 state words, a
64-bit bit counter and a 64-byte buffer. -/
structure SM3_CTX where
  state : List Nat
  bitlen : Nat
  buffer : List Nat
  deriving Repr, DecidableEq

/-- Context initialization `sm3_init`: IV, zero bit count, zeroed buffer. -/
def sm3_init : SM3_CTX :=
  { state := SM3_IV, bitlen := 0, buffer := List.replicate 64 0 }

/-- Body of the byte loop of `sm3_update` (sm3.c lines 219-227): store the
byte at the running buffer index, and compress when the buffer fills. -/
def updByte (acc : SM3_CTX × Nat) (b : Nat) : SM3_CTX × Nat :=
  let ctx := acc.1
  let idx := acc.2
  let buf := ctx.buffer.set idx b
  if idx + 1 = 64 then
    ({ ctx with state := sm3_compress ctx.state buf, buffer := buf }, 0)
  else
    ({ ctx with buffer := buf }, idx + 1)

/-- The streaming update `sm3_update`: the starting index is
`bitlen / 8 % 64`, the bit counter grows by `8 * len` with `uint64_t`
wraparound, and each input byte goes through the buffer. -/
def sm3_update (ctx : SM3_CTX) (data : List Nat) : SM3_CTX :=
  let idx := ctx.bitlen / 8 % 64
  let ctx1 := { ctx with bitlen := (ctx.bitlen + data.length * 8) % M64 }
  (data.foldl updByte (ctx1, idx)).1

/-- The zero-fill loops of `sm3_final` (`while (idx < bound) buffer[idx++] = 0`). -/
def zeroFillTo (bound : Nat) (buf : List Nat) (idx : Nat) : List Nat :=
  if idx < bound then zeroFillTo bound (buf.set idx 0) (idx + 1) else buf
termination_by bound - idx

/-- The length-writing loop of `sm3_final` (lines 262-264): bytes 56..63
receive the bit count big-endian. -/
def writeLenBE (bitlen : Nat) (buf : List Nat) : List Nat :=
  (List.range 8).foldl (fun b i => b.set (56 + i) ((bitlen >>> (56 - 8 * i)) &&& 0xff)) buf

/-- The digest serialization loop shared by `sm3_final` (lines 274-279):
each state word becomes four big-endian bytes. -/
def serialize (st : List Nat) : List Nat :=
  ((List.range 8).map (fun i =>
    [(st.getD i 0 >>> 24) &&& 0xff, (st.getD i 0 >>> 16) &&& 0xff,
     (st.getD i 0 >>> 8) &&& 0xff, st.getD i 0 &&& 0xff])).flatten

/-- Finalization `sm3_final`: append 0x80, spill to an extra compressed
block when `idx > 56`, zero-fill to 56, write the bit count, compress,
serialize. -/
def sm3_final (ctx : SM3_CTX) : List Nat :=
  let idx := ctx.bitlen / 8 % 64
  let buf1 := ctx.buffer.set idx 0x80
  let step2 :=
    if 56 < idx + 1 then
      let bufz := zeroFillTo 64 buf1 (idx + 1)
      (sm3_compress ctx.state bufz, bufz, 0)
    else (ctx.state, buf1, idx + 1)
  let buf3 := zeroFillTo 56 step2.2.1 step2.2.2
  let buf4 := writeLenBE ctx.bitlen buf3
  serialize (sm3_compress step2.1 buf4)

/-- One-shot hash `sm3_hash` of sm3.c: init, update, final. -/
def sm3_hash (input : List Nat) : List Nat :=
  sm3_final (sm3_update sm3_init input)

/-- Lowercase hex digit, as produced by `snprintf("%02x")`. -/
def hexDigit (n : Nat) : Char :=
  if n < 10 then Char.ofNat (48 + n) else Char.ofNat (87 + n)

/-- Hex rendering of a digest byte, two lowercase digits. -/
def hexByte (b : Nat) : List Char :=
  [hexDigit (b / 16 % 16), hexDigit (b % 16)]

/-- The hex string interface `sm3_hash_string`: 64 lowercase hex
characters of the 32-byte digest. -/
def sm3_hash_string (input : List Nat) : String :=
  ⟨((sm3_hash input).map hexByte).flatten⟩

end SM3

namespace SM3cpp

open SM3 (M32 M64 add32 rotl p0 p1 beWord SM3_IV serialize)

/-- Round-constant table `T` of sm3.cpp (identical content to sm3.c's). -/
def T (j : Nat) : Nat :=
  if j < 16 then 0x79CC4519 else 0x7A879D8A

/-- Boolean function `FF` of sm3.cpp, with the `j < 16` guard. -/
def FF (X Y Z : Nat) (j : Nat) : Nat :=
  if j < 16 then X ^^^ Y ^^^ Z else (X &&& Y) ||| (X &&& Z) ||| (Y &&& Z)

/-- Boolean function `GG` of sm3.cpp, with the `j < 16` guard. -/
def GG (X Y Z : Nat) (j : Nat) : Nat :=
  if j < 16 then X ^^^ Y ^^^ Z else (X &&& Y) ||| ((X ^^^ 0xFFFFFFFF) &&& Z)

/-- Message expansion of sm3.cpp (`message_expansion`), producing the
68-word schedule by the same three loops as sm3.c. -/
def message_expansion (blk : List Nat) : List Nat × List Nat :=
  let w := (List.range' 16 52).foldl SM3.extendStep ((List.range 16).map (beWord blk))
  (w, (List.range 64).map (fun i => w.getD i 0 ^^^ w.getD (i + 4) 0))

/-- One round of the sm3.cpp `compress` loop. -/
def roundStepCpp (w w1 : List Nat) (r : SM3.Regs) (j : Nat) : SM3.Regs :=
  let SS1 := rotl (add32 (add32 (rotl r.A 12) r.E) (rotl (T j) j)) 7
  let SS2 := SS1 ^^^ rotl r.A 12
  let TT1 := add32 (add32 (add32 (FF r.A r.B r.C j) r.D) SS2) (w1.getD j 0)
  let TT2 := add32 (add32 (add32 (GG r.E r.F r.G j) r.H) SS1) (w.getD j 0)
  { A := TT1, B := r.A, C := rotl r.B 9, D := r.C,
    E := p0 TT2, F := r.E, G := rotl r.F 19, H := r.G }

/-- The compression function `compress` of sm3.cpp. -/
def compress (st : List Nat) (blk : List Nat) : List Nat :=
  let ws := message_expansion blk
  let r0 : SM3.Regs :=
    { A := st.getD 0 0, B := st.getD 1 0, C := st.getD 2 0, D := st.getD 3 0,
      E := st.getD 4 0, F := st.getD 5 0, G := st.getD 6 0, H := st.getD 7 0 }
  let r := (List.range 64).foldl (roundStepCpp ws.1 ws.2) r0
  [st.getD 0 0 ^^^ r.A, st.getD 1 0 ^^^ r.B, st.getD 2 0 ^^^ r.C, st.getD 3 0 ^^^ r.D,
   st.getD 4 0 ^^^ r.E, st.getD 5 0 ^^^ r.F, st.getD 6 0 ^^^ r.G, st.getD 7 0 ^^^ r.H]

/-- Message padding `sm3_padding` of sm3.cpp: the zero-initialized output
buffer of length `((len + 9 + 63) / 64) * 64` receives the message, the
byte 0x80 at offset `len`, and the big-endian bit length (computed in
`size_t`, hence modulo 2^64) in its last 8 bytes. -/
def sm3_padding (input : List Nat) : List Nat :=
  let len := input.length
  let bit_len := len * 8 % M64
  let out_len := (len + 1 + 8 + 64 - 1) / 64 * 64
  input ++ [0x80] ++ List.replicate (out_len - len - 9) 0 ++
    (List.range 8).map (fun i => (bit_len >>> ((7 - i) * 8)) &&& 0xFF)

/-- One-shot hash `sm3_hash` of sm3.cpp: pad the whole message, then
compress each 64-byte chunk in order, then serialize big-endian. -/
def sm3_hash (input : List Nat) : List Nat :=
  let padded := sm3_padding input
  let st := (List.range (padded.length / 64)).foldl
    (fun s i => compress s ((padded.drop (64 * i)).take 64)) SM3_IV
  serialize st

end SM3cpp

namespace SM3

/-! Specification-side definitions, written from the words of spec.md
rather than from the C sources, to be compared with the embeddings
above. -/

/-- Spec §4.2 step 4: round constant `T[j]` is `0x79cc4519` for `j<16`,
else `0x7a879d8a`. -/
def Tspec (j : Nat) : Nat := if j < 16 then 0x79cc4519 else 0x7a879d8a

/-- Spec §4.2: `FF(X,Y,Z,j)`: XOR of all three when `j<16`; majority when
`j>=16`. -/
def FFspec (x y z j : Nat) : Nat :=
  if j < 16 then x ^^^ y ^^^ z else (x &&& y) ||| (x &&& z) ||| (y &&& z)

/-- Spec §4.2: `GG(X,Y,Z,j)`: XOR of all three when `j<16`; choice when
`j>=16`. -/
def GGspec (x y z j : Nat) : Nat :=
  if j < 16 then x ^^^ y ^^^ z else (x &&& y) ||| ((x ^^^ 0xffffffff) &&& z)

/-- Spec §4.2: `P0(x) = x XOR ROTL(x,9) XOR ROTL(x,17)`. -/
def P0spec (x : Nat) : Nat := x ^^^ rotl x 9 ^^^ rotl x 17

/-- Spec §4.2: `P1(x) = x XOR ROTL(x,15) XOR ROTL(x,23)`. -/
def P1spec (x : Nat) : Nat := x ^^^ rotl x 15 ^^^ rotl x 23

/-- Spec §4.2 steps 1-2: schedule word `W[j]`, as a recurrence: the 16
parsed big-endian words, extended through
`W[i] = P1(W[i-16] XOR W[i-9] XOR ROTL(W[i-3],15)) XOR ROTL(W[i-13],7) XOR W[i-6]`. -/
def Wspec (blk : List Nat) : Nat → Nat
  | j =>
    if h : j < 16 then beWord blk j
    else
      P1spec (Wspec blk (j - 16) ^^^ Wspec blk (j - 9) ^^^ rotl (Wspec blk (j - 3)) 15) ^^^
        rotl (Wspec blk (j - 13)) 7 ^^^ Wspec blk (j - 6)
termination_by j => j
decreasing_by all_goals omega

/-- Spec §4.2 step 4: one mixing round, with the round-constant rotation
amount written `j mod 32` as the spec demands, and the register update
taken simultaneously from the round-entry snapshot. -/
def roundSpec (blk : List Nat) (r : Regs) (j : Nat) : Regs :=
  let SS1 := rotl (add32 (add32 (rotl r.A 12) r.E) (rotl (Tspec j) (j % 32))) 7
  let SS2 := SS1 ^^^ rotl r.A 12
  let TT1 := add32 (add32 (add32 (FFspec r.A r.B r.C j) r.D) SS2)
             (Wspec blk j ^^^ Wspec blk (j + 4))
  let TT2 := add32 (add32 (add32 (GGspec r.E r.F r.G j) r.H) SS1) (Wspec blk j)
  { A := TT1, B := r.A, C := rotl r.B 9, D := r.C,
    E := P0spec TT2, F := r.E, G := rotl r.F 19, H := r.G }

/-- Spec §4.2: the whole compression contract: 64 rounds from the current
state, then new state word `i` = old state word `i` XOR final working
variable `i`. -/
def compressSpec (st : List Nat) (blk : List Nat) : List Nat :=
  let r0 : Regs := { A := st.getD 0 0, B := st.getD 1 0, C := st.getD 2 0, D := st.getD 3 0,
                     E := st.getD 4 0, F := st.getD 5 0, G := st.getD 6 0, H := st.getD 7 0 }
  let r := (List.range 64).foldl (roundSpec blk) r0
  [st.getD 0 0 ^^^ r.A, st.getD 1 0 ^^^ r.B, st.getD 2 0 ^^^ r.C, st.getD 3 0 ^^^ r.D,
   st.getD 4 0 ^^^ r.E, st.getD 5 0 ^^^ r.F, st.getD 6 0 ^^^ r.G, st.getD 7 0 ^^^ r.H]

/-- The eight big-endian bytes of the bit count, as written into buffer
bytes 56..63 of the final block. -/
def lenBytesBE (bitlen : Nat) : List Nat :=
  (List.range 8).map (fun i => (bitlen >>> (56 - 8 * i)) &&& 0xff)

/-- Spec §4.4, declaratively: append `0x80` after the pending bytes; one
extra compression on a zero-filled block exactly when `idx+1 > 56` (two
compressions in that branch, one otherwise); the unmodified accumulated
bit count goes big-endian into bytes 56..63 of the block compressed last;
the 8 state words emerge as 32 big-endian bytes. -/
def finalizeSpec (ctx : SM3_CTX) : List Nat :=
  let idx := ctx.bitlen / 8 % 64
  let pend := ctx.buffer.take idx
  if 56 < idx + 1 then
    let block1 := pend ++ [0x80] ++ List.replicate (63 - idx) 0
    let block2 := List.replicate 56 0 ++ lenBytesBE ctx.bitlen
    serialize (sm3_compress (sm3_compress ctx.state block1) block2)
  else
    serialize (sm3_compress ctx.state
      (pend ++ [0x80] ++ List.replicate (55 - idx) 0 ++ lenBytesBE ctx.bitlen))

/-- The maximal list of complete 64-byte blocks at the front of a byte
stream, in order. -/
def chunks64 (m : List Nat) : List (List Nat) :=
  if h : 64 ≤ m.length then m.take 64 :: chunks64 (m.drop 64) else []
termination_by m.length
decreasing_by simp; omega

/-- The residue of a byte stream after its complete 64-byte blocks. -/
def tail64 (m : List Nat) : List Nat := m.drop (m.length / 64 * 64)

/-- The state after compressing, from the IV, every complete block of the
stream in order. -/
def absorbedState (m : List Nat) : List Nat :=
  (chunks64 m).foldl sm3_compress SM3_IV

/-- Abstraction relation between the byte stream ingested so far and a
streaming context. -/
def Inv (msg : List Nat) (ctx : SM3_CTX) : Prop :=
  ctx.state = absorbedState msg ∧
  ctx.bitlen = msg.length * 8 % M64 ∧
  ctx.buffer.length = 64 ∧
  ctx.buffer.take (msg.length % 64) = tail64 msg

/-- Contexts reachable by `sm3_init` followed by any sequence of
`sm3_update` calls. -/
inductive Reachable : SM3_CTX → Prop where
  | init : Reachable sm3_init
  | update (ctx : SM3_CTX) (data : List Nat) :
      Reachable ctx → Reachable (sm3_update ctx data)

/-! Instrumented variant of the update loop: identical control flow, but
also records, in order, every block handed to the compression function. -/

/-- Accumulator of the instrumented byte loop: state, buffer, buffer
index, and the trace of compressed blocks. -/
structure Fill where
  st : List Nat
  buf : List Nat
  idx : Nat
  tr : List (List Nat)
  deriving Repr

/-- Instrumented body of the `sm3_update` byte loop. -/
def fillByte (a : Fill) (b : Nat) : Fill :=
  let buf := a.buf.set a.idx b
  if a.idx + 1 = 64 then
    { st := sm3_compress a.st buf, buf := buf, idx := 0, tr := a.tr ++ [buf] }
  else
    { a with buf := buf, idx := a.idx + 1 }

/-- Instrumented byte loop over a whole update call. -/
def fillRun (a : Fill) (data : List Nat) : Fill := data.foldl fillByte a

/-- Instrumented `sm3_update`: the resulting context plus the list of
blocks compressed during the call. -/
def sm3_updateT (ctx : SM3_CTX) (data : List Nat) : SM3_CTX × List (List Nat) :=
  let r := fillRun { st := ctx.state, buf := ctx.buffer, idx := ctx.bitlen / 8 % 64, tr := [] } data
  ({ state := r.st, bitlen := (ctx.bitlen + data.length * 8) % M64, buffer := r.buf }, r.tr)

/-- A whole instrumented run: init, then the given update calls, with
their compression traces concatenated in order. -/
def runT (chunks : List (List Nat)) : SM3_CTX × List (List Nat) :=
  chunks.foldl (fun acc c =>
    ((sm3_updateT acc.1 c).1, acc.2 ++ (sm3_updateT acc.1 c).2)) (sm3_init, [])

/-! Checked variant: every buffer write goes through an Option-valued
store that fails on an out-of-bounds index, so that in-bounds claims
become `= some _` theorems. -/

/-- Bounds-checked list store. -/
def setC (l : List Nat) (i v : Nat) : Option (List Nat) :=
  if i < l.length then some (l.set i v) else none

/-- Checked body of the `sm3_update` byte loop. -/
def updByteC (acc : Option (SM3_CTX × Nat)) (b : Nat) : Option (SM3_CTX × Nat) :=
  match acc with
  | none => none
  | some (ctx, idx) =>
    match setC ctx.buffer idx b with
    | none => none
    | some buf =>
      if idx + 1 = 64 then
        some ({ ctx with state := sm3_compress ctx.state buf, buffer := buf }, 0)
      else
        some ({ ctx with buffer := buf }, idx + 1)

/-- Checked `sm3_update`. -/
def sm3_updateC (ctx : SM3_CTX) (data : List Nat) : Option SM3_CTX :=
  let idx := ctx.bitlen / 8 % 64
  let ctx1 := { ctx with bitlen := (ctx.bitlen + data.length * 8) % M64 }
  (data.foldl updByteC (some (ctx1, idx))).map (fun a => a.1)

/-- Checked zero-fill loop of `sm3_final`. -/
def zeroFillToC (bound : Nat) (buf : List Nat) (idx : Nat) : Option (List Nat) :=
  if idx < bound then
    match setC buf idx 0 with
    | none => none
    | some b => zeroFillToC bound b (idx + 1)
  else some buf
termination_by bound - idx

/-- Checked length-writing loop of `sm3_final`. -/
def writeLenBEC (bitlen : Nat) (buf : List Nat) : Option (List Nat) :=
  (List.range 8).foldl
    (fun b i => b.bind (fun l => setC l (56 + i) ((bitlen >>> (56 - 8 * i)) &&& 0xff))) (some buf)

/-- Checked `sm3_final`. -/
def sm3_finalC (ctx : SM3_CTX) : Option (List Nat) :=
  let idx := ctx.bitlen / 8 % 64
  match setC ctx.buffer idx 0x80 with
  | none => none
  | some buf1 =>
    let step2 :=
      if 56 < idx + 1 then
        (zeroFillToC 64 buf1 (idx + 1)).map (fun bufz => (sm3_compress ctx.state bufz, bufz, 0))
      else some (ctx.state, buf1, idx + 1)
    match step2 with
    | none => none
    | some (st, buf2, idx2) =>
      match zeroFillToC 56 buf2 idx2 with
      | none => none
      | some buf3 =>
        match writeLenBEC ctx.bitlen buf3 with
        | none => none
        | some buf4 => some (serialize (sm3_compress st buf4))

/-! Equivalence of the embedded compression loops with the
specification-side compression. -/

/-- The schedule list after `n` iterations of the extension loop. -/
def Wstage (blk : List Nat) : Nat → List Nat
  | 0 => loadW blk
  | n + 1 => extendStep (Wstage blk n) (16 + n)

lemma Wlist_eq_Wstage (blk : List Nat) : Wlist blk = Wstage blk 52 := by
  rfl

lemma length_Wstage (blk : List Nat) (n : Nat) : (Wstage blk n).length = 16 + n := by
  induction n with
  | zero => simp [Wstage, loadW]
  | succ n ih => simp [Wstage, extendStep, ih]; omega

lemma Wstage_getD_succ (blk : List Nat) (n j : Nat) (h : j < 16 + n) :
    (Wstage blk (n + 1)).getD j 0 = (Wstage blk n).getD j 0 := by
  have hl : j < (Wstage blk n).length := by rw [length_Wstage]; omega
  simp [Wstage, extendStep, List.getD_eq_getElem?_getD, List.getElem?_append_left hl]

lemma p0_eq_P0spec (x : Nat) : p0 x = P0spec x := rfl

lemma p1_eq_P1spec (x : Nat) : p1 x = P1spec x := rfl

lemma Wstage_getD (blk : List Nat) :
    ∀ n, ∀ j, j < 16 + n → (Wstage blk n).getD j 0 = Wspec blk j := by
  intro n
  induction n with
  | zero =>
    intro j hj
    rw [Wspec, dif_pos (by omega : j < 16)]
    simp [Wstage, loadW, List.getD_eq_getElem?_getD, List.getElem?_map,
      List.getElem?_range, (by omega : j < 16)]
  | succ n ih =>
    intro j hj
    rcases Nat.lt_or_ge j (16 + n) with h | h
    · rw [Wstage_getD_succ blk n j h]; exact ih j h
    · have hj' : j = 16 + n := by omega
      subst hj'
      have hlen : (Wstage blk n).length = 16 + n := length_Wstage blk n
      have hlast : (Wstage blk (n + 1)).getD (16 + n) 0 =
          p1 ((Wstage blk n).getD n 0 ^^^ (Wstage blk n).getD (7 + n) 0 ^^^
              rotl ((Wstage blk n).getD (13 + n) 0) 15) ^^^
            rotl ((Wstage blk n).getD (3 + n) 0) 7 ^^^ (Wstage blk n).getD (10 + n) 0 := by
        simp only [Wstage, extendStep, List.getD_eq_getElem?_getD]
        rw [List.getElem?_append_right (by omega)]
        simp [hlen, (by omega : 16 + n - 16 = n), (by omega : 16 + n - 9 = 7 + n),
          (by omega : 16 + n - 3 = 13 + n), (by omega : 16 + n - 13 = 3 + n),
          (by omega : 16 + n - 6 = 10 + n)]
      rw [hlast, ih n (by omega), ih (7 + n) (by omega), ih (13 + n) (by omega),
        ih (3 + n) (by omega), ih (10 + n) (by omega)]
      conv_rhs => rw [Wspec]
      rw [dif_neg (by omega : ¬ 16 + n < 16)]
      rw [p1_eq_P1spec, (by omega : 16 + n - 16 = n), (by omega : 16 + n - 9 = 7 + n),
        (by omega : 16 + n - 3 = 13 + n), (by omega : 16 + n - 13 = 3 + n),
        (by omega : 16 + n - 6 = 10 + n)]

lemma Wlist_getD (blk : List Nat) (j : Nat) (h : j < 68) :
    (Wlist blk).getD j 0 = Wspec blk j := by
  rw [Wlist_eq_Wstage]; exact Wstage_getD blk 52 j (by omega)

lemma W1list_getD (blk : List Nat) (j : Nat) (h : j < 64) :
    (W1list (Wlist blk)).getD j 0 = Wspec blk j ^^^ Wspec blk (j + 4) := by
  unfold W1list
  rw [List.getD_eq_getElem?_getD, List.getElem?_map, List.getElem?_range h]
  show (Wlist blk).getD j 0 ^^^ (Wlist blk).getD (j + 4) 0 = _
  rw [Wlist_getD blk j (by omega), Wlist_getD blk (j + 4) (by omega)]

lemma ff_eq_FFspec (x y z j : Nat) : ff x y z j = FFspec x y z j := by
  unfold ff FFspec
  rcases Nat.lt_or_ge j 16 with h | h
  · rw [if_pos (by omega), if_pos h]
  · rw [if_neg (by omega), if_neg (by omega)]

lemma gg_eq_GGspec (x y z j : Nat) : gg x y z j = GGspec x y z j := by
  unfold gg GGspec
  rcases Nat.lt_or_ge j 16 with h | h
  · rw [if_pos (by omega), if_pos h]
  · rw [if_neg (by omega), if_neg (by omega)]

lemma rotl_mod32 (x n : Nat) : rotl x n = rotl x (n % 32) := by
  simp [rotl, Nat.mod_mod_of_dvd]

lemma roundStep_eq_roundSpec (blk : List Nat) (r : Regs) (j : Nat) (h : j < 64) :
    roundStep (Wlist blk) (W1list (Wlist blk)) r j = roundSpec blk r j := by
  have hW := Wlist_getD blk j (by omega)
  have hW1 := W1list_getD blk j h
  have hT : SM3_T j = Tspec j := rfl
  simp only [roundStep, roundSpec, hW, hW1, ff_eq_FFspec, gg_eq_GGspec, hT,
    ← rotl_mod32, p0_eq_P0spec]

lemma sm3_compress_eq_spec (st blk : List Nat) : sm3_compress st blk = compressSpec st blk := by
  have hfold :
      (List.range 64).foldl (roundStep (Wlist blk) (W1list (Wlist blk)))
        { A := st.getD 0 0, B := st.getD 1 0, C := st.getD 2 0, D := st.getD 3 0,
          E := st.getD 4 0, F := st.getD 5 0, G := st.getD 6 0, H := st.getD 7 0 } =
      (List.range 64).foldl (roundSpec blk)
        { A := st.getD 0 0, B := st.getD 1 0, C := st.getD 2 0, D := st.getD 3 0,
          E := st.getD 4 0, F := st.getD 5 0, G := st.getD 6 0, H := st.getD 7 0 } :=
    List.foldl_ext _ _ _ (fun r j hj => roundStep_eq_roundSpec blk r j (List.mem_range.mp hj))
  simp only [sm3_compress, compressSpec, hfold]

lemma cpp_roundStep_eq_roundSpec (blk : List Nat) (r : Regs) (j : Nat) (h : j < 64) :
    SM3cpp.roundStepCpp (Wlist blk) (W1list (Wlist blk)) r j = roundSpec blk r j := by
  have hW := Wlist_getD blk j (by omega)
  have hW1 := W1list_getD blk j h
  have hT : SM3cpp.T j = Tspec j := rfl
  have hFF : ∀ x y z, SM3cpp.FF x y z j = FFspec x y z j := fun x y z => rfl
  have hGG : ∀ x y z, SM3cpp.GG x y z j = GGspec x y z j := fun x y z => rfl
  simp only [SM3cpp.roundStepCpp, roundSpec, hW, hW1, hFF, hGG, hT,
    ← rotl_mod32, p0_eq_P0spec]

lemma cpp_compress_eq_spec (st blk : List Nat) :
    SM3cpp.compress st blk = compressSpec st blk := by
  have hexp : SM3cpp.message_expansion blk = (Wlist blk, W1list (Wlist blk)) := rfl
  have hfold :
      (List.range 64).foldl (SM3cpp.roundStepCpp (Wlist blk) (W1list (Wlist blk)))
        { A := st.getD 0 0, B := st.getD 1 0, C := st.getD 2 0, D := st.getD 3 0,
          E := st.getD 4 0, F := st.getD 5 0, G := st.getD 6 0, H := st.getD 7 0 } =
      (List.range 64).foldl (roundSpec blk)
        { A := st.getD 0 0, B := st.getD 1 0, C := st.getD 2 0, D := st.getD 3 0,
          E := st.getD 4 0, F := st.getD 5 0, G := st.getD 6 0, H := st.getD 7 0 } :=
    List.foldl_ext _ _ _
      (fun r j hj => cpp_roundStep_eq_roundSpec blk r j (List.mem_range.mp hj))
  simp only [SM3cpp.compress, hexp, compressSpec, hfold]

lemma cpp_compress_eq_c (st blk : List Nat) : SM3cpp.compress st blk = sm3_compress st blk := by
  rw [cpp_compress_eq_spec, sm3_compress_eq_spec]

/-! Buffer-surgery lemmas: the imperative write loops of `sm3_final` as
take/append/replicate decompositions. -/

lemma set_take_succ (buf : List Nat) (idx v : Nat) (h : idx < buf.length) :
    (buf.set idx v).take (idx + 1) = buf.take idx ++ [v] := by
  rw [List.set_eq_take_cons_drop _ h]
  have hlt : (buf.take idx).length = idx := by rw [List.length_take]; omega
  rw [show idx + 1 = (buf.take idx).length + 1 from by omega, List.take_append]
  simp

lemma zeroFillTo_eq_aux (n : Nat) : ∀ (bound idx : Nat) (buf : List Nat), bound - idx = n →
    idx ≤ bound → bound ≤ buf.length →
    zeroFillTo bound buf idx = buf.take idx ++ List.replicate (bound - idx) 0 ++ buf.drop bound := by
  induction n with
  | zero =>
    intro bound idx buf hn h1 h2
    have heq : idx = bound := by omega
    subst heq
    rw [zeroFillTo, if_neg (by omega)]
    simp [List.take_append_drop]
  | succ n ih =>
    intro bound idx buf hn h1 h2
    rw [zeroFillTo, if_pos (by omega)]
    rw [ih bound (idx + 1) (buf.set idx 0) (by omega) (by omega) (by simpa using h2)]
    rw [List.drop_set_of_lt 0 buf (by omega : idx < bound)]
    rw [set_take_succ buf idx 0 (by omega)]
    rw [show bound - idx = (bound - (idx + 1)) + 1 from by omega, List.replicate_succ]
    simp

lemma zeroFillTo_eq (bound idx : Nat) (buf : List Nat) (h1 : idx ≤ bound)
    (h2 : bound ≤ buf.length) :
    zeroFillTo bound buf idx = buf.take idx ++ List.replicate (bound - idx) 0 ++ buf.drop bound :=
  zeroFillTo_eq_aux (bound - idx) bound idx buf rfl h1 h2

lemma writeLen_fold_right (bl : Nat) (Y : List Nat) (hY : Y.length = 56) (is : List Nat) :
    ∀ Z, is.foldl (fun b i => b.set (56 + i) ((bl >>> (56 - 8 * i)) &&& 0xff)) (Y ++ Z)
      = Y ++ is.foldl (fun z i => z.set i ((bl >>> (56 - 8 * i)) &&& 0xff)) Z := by
  induction is with
  | nil => intro Z; rfl
  | cons i is ih =>
    intro Z
    simp only [List.foldl_cons]
    rw [List.set_append_right _ _ (by omega : Y.length ≤ 56 + i), hY,
      Nat.add_sub_cancel_left]
    exact ih _

lemma set_fold_eight (bl z0 z1 z2 z3 z4 z5 z6 z7 : Nat) :
    (List.range 8).foldl (fun z i => z.set i ((bl >>> (56 - 8 * i)) &&& 0xff))
      [z0, z1, z2, z3, z4, z5, z6, z7] = lenBytesBE bl := by
  rfl

lemma writeLenBE_append (bl : Nat) (Y Z : List Nat) (hY : Y.length = 56) (hZ : Z.length = 8) :
    writeLenBE bl (Y ++ Z) = Y ++ lenBytesBE bl := by
  rcases Z with _ | ⟨z0, Z⟩; · simp at hZ
  rcases Z with _ | ⟨z1, Z⟩; · simp at hZ
  rcases Z with _ | ⟨z2, Z⟩; · simp at hZ
  rcases Z with _ | ⟨z3, Z⟩; · simp at hZ
  rcases Z with _ | ⟨z4, Z⟩; · simp at hZ
  rcases Z with _ | ⟨z5, Z⟩; · simp at hZ
  rcases Z with _ | ⟨z6, Z⟩; · simp at hZ
  rcases Z with _ | ⟨z7, Z⟩; · simp at hZ
  rcases Z with _ | ⟨z8, Z⟩
  · rw [writeLenBE, writeLen_fold_right bl Y hY, set_fold_eight]
  · simp at hZ

lemma final_eq_finalizeSpec (ctx : SM3_CTX) (hbuf : ctx.buffer.length = 64) :
    sm3_final ctx = finalizeSpec ctx := by
  have hidxlt : ctx.bitlen / 8 % 64 < 64 := Nat.mod_lt _ (by omega)
  simp only [sm3_final, finalizeSpec]
  set idx := ctx.bitlen / 8 % 64 with hidx
  by_cases hcase : 56 < idx + 1
  · rw [if_pos hcase, if_pos hcase]
    have h80 : (ctx.buffer.set idx 0x80).length = 64 := by simpa using hbuf
    have hfill : zeroFillTo 64 (ctx.buffer.set idx 0x80) (idx + 1) =
        ctx.buffer.take idx ++ [0x80] ++ List.replicate (63 - idx) 0 := by
      rw [zeroFillTo_eq 64 (idx + 1) _ (by omega) (by omega)]
      rw [set_take_succ ctx.buffer idx 0x80 (by omega)]
      rw [List.drop_eq_nil_of_le (by omega)]
      rw [show 64 - (idx + 1) = 63 - idx from by omega]
      simp
    have hfilllen : (ctx.buffer.take idx ++ [0x80] ++ List.replicate (63 - idx) 0).length = 64 := by
      simp [List.length_take]
      omega
    have hfill2 : zeroFillTo 56 (ctx.buffer.take idx ++ [0x80] ++ List.replicate (63 - idx) 0) 0 =
        List.replicate 56 0 ++
          (ctx.buffer.take idx ++ [0x80] ++ List.replicate (63 - idx) 0).drop 56 := by
      rw [zeroFillTo_eq 56 0 _ (by omega) (by omega)]
      simp
    have hdroplen : ((ctx.buffer.take idx ++ [0x80] ++ List.replicate (63 - idx) 0).drop 56).length
        = 8 := by
      rw [List.length_drop, hfilllen]
    rw [hfill, hfill2, writeLenBE_append _ _ _ (by simp) hdroplen]
  · rw [if_neg hcase, if_neg hcase]
    have htk : (ctx.buffer.set idx 0x80).take (idx + 1) = ctx.buffer.take idx ++ [0x80] :=
      set_take_succ ctx.buffer idx 0x80 (by omega)
    have hfill : zeroFillTo 56 (ctx.buffer.set idx 0x80) (idx + 1) =
        (ctx.buffer.take idx ++ ([0x80] ++ List.replicate (55 - idx) 0)) ++
          ctx.buffer.drop 56 := by
      rw [zeroFillTo_eq 56 (idx + 1) _ (by omega) (by simp [hbuf])]
      rw [htk, List.drop_set_of_lt 0x80 ctx.buffer (by omega : idx < 56)]
      rw [show 56 - (idx + 1) = 55 - idx from by omega]
      simp
    have hYlen : (ctx.buffer.take idx ++ ([0x80] ++ List.replicate (55 - idx) 0)).length = 56 := by
      simp [List.length_take]
      omega
    have hZlen : (ctx.buffer.drop 56).length = 8 := by
      rw [List.length_drop, hbuf]
    rw [hfill, writeLenBE_append _ _ _ hYlen hZlen]
    simp [List.append_assoc]

/-! The update loop against the instrumented loop, and the block
decomposition of byte streams. -/

lemma foldl_updByte_eq_fillRun (data : List Nat) :
    ∀ (st buf : List Nat) (bl idx : Nat) (tr : List (List Nat)),
      data.foldl updByte ({ state := st, bitlen := bl, buffer := buf }, idx)
        = ({ state := (fillRun { st := st, buf := buf, idx := idx, tr := tr } data).st,
             bitlen := bl,
             buffer := (fillRun { st := st, buf := buf, idx := idx, tr := tr } data).buf },
           (fillRun { st := st, buf := buf, idx := idx, tr := tr } data).idx) := by
  induction data with
  | nil => intro st buf bl idx tr; rfl
  | cons b data ih =>
    intro st buf bl idx tr
    by_cases h : idx + 1 = 64
    · show data.foldl updByte (updByte ({ state := st, bitlen := bl, buffer := buf }, idx) b) = _
      rw [show updByte ({ state := st, bitlen := bl, buffer := buf }, idx) b
          = ({ state := sm3_compress st (buf.set idx b), bitlen := bl,
               buffer := buf.set idx b }, 0) from by simp [updByte, h]]
      rw [show fillRun { st := st, buf := buf, idx := idx, tr := tr } (b :: data)
          = fillRun { st := sm3_compress st (buf.set idx b), buf := buf.set idx b, idx := 0,
                      tr := tr ++ [buf.set idx b] } data from by simp [fillRun, fillByte, h]]
      exact ih _ _ _ _ _
    · show data.foldl updByte (updByte ({ state := st, bitlen := bl, buffer := buf }, idx) b) = _
      rw [show updByte ({ state := st, bitlen := bl, buffer := buf }, idx) b
          = ({ state := st, bitlen := bl, buffer := buf.set idx b }, idx + 1) from by
            simp [updByte, h]]
      rw [show fillRun { st := st, buf := buf, idx := idx, tr := tr } (b :: data)
          = fillRun { st := st, buf := buf.set idx b, idx := idx + 1, tr := tr } data from by
            simp [fillRun, fillByte, h]]
      exact ih _ _ _ _ _

lemma sm3_update_eq_fillRun (ctx : SM3_CTX) (data : List Nat) :
    sm3_update ctx data =
      { state := (fillRun { st := ctx.state, buf := ctx.buffer,
                            idx := ctx.bitlen / 8 % 64, tr := [] } data).st,
        bitlen := (ctx.bitlen + data.length * 8) % M64,
        buffer := (fillRun { st := ctx.state, buf := ctx.buffer,
                             idx := ctx.bitlen / 8 % 64, tr := [] } data).buf } := by
  show (data.foldl updByte
      ({ state := ctx.state, bitlen := (ctx.bitlen + data.length * 8) % M64,
         buffer := ctx.buffer }, ctx.bitlen / 8 % 64)).1 = _
  rw [foldl_updByte_eq_fillRun data ctx.state ctx.buffer _ _ []]

lemma sm3_updateT_fst (ctx : SM3_CTX) (data : List Nat) :
    (sm3_updateT ctx data).1 = sm3_update ctx data := by
  rw [sm3_update_eq_fillRun]; rfl

lemma chunks64_eq_nil (m : List Nat) (h : m.length < 64) : chunks64 m = [] := by
  rw [chunks64, dif_neg (by omega)]

lemma chunks64_cons (A r : List Nat) (hA : A.length = 64) :
    chunks64 (A ++ r) = A :: chunks64 r := by
  rw [chunks64, dif_pos (by simp [hA])]
  rw [show (64 : Nat) = A.length from hA.symm, List.take_left, List.drop_left]

lemma chunks64_append_aux (n : Nat) : ∀ (A : List Nat), A.length = 64 * n → ∀ r,
    chunks64 (A ++ r) = chunks64 A ++ chunks64 r := by
  induction n with
  | zero =>
    intro A hA r
    have : A = [] := List.eq_nil_of_length_eq_zero (by omega)
    subst this
    simp [chunks64_eq_nil ([] : List Nat) (by simp)]
  | succ n ih =>
    intro A hA r
    have hsplit : A = A.take 64 ++ A.drop 64 := (List.take_append_drop 64 A).symm
    have htk : (A.take 64).length = 64 := by rw [List.length_take]; omega
    rw [hsplit, List.append_assoc, chunks64_cons _ _ htk, chunks64_cons _ _ htk,
      ih (A.drop 64) (by rw [List.length_drop]; omega) r]
    rfl

lemma chunks64_append (A : List Nat) (hA : A.length % 64 = 0) (r : List Nat) :
    chunks64 (A ++ r) = chunks64 A ++ chunks64 r :=
  chunks64_append_aux (A.length / 64) A (by omega) r

lemma length_tail64 (m : List Nat) : (tail64 m).length = m.length % 64 := by
  unfold tail64; rw [List.length_drop]; omega

lemma tail64_small (m : List Nat) (h : m.length < 64) : tail64 m = m := by
  unfold tail64
  rw [Nat.div_eq_of_lt h]
  simp

lemma tail64_append (A : List Nat) (hA : A.length % 64 = 0) (r : List Nat) :
    tail64 (A ++ r) = tail64 r := by
  unfold tail64
  rw [List.length_append,
    show (A.length + r.length) / 64 * 64 = A.length + r.length / 64 * 64 from by omega,
    List.drop_append]

lemma chunks64_decomp (msg r : List Nat) :
    chunks64 (msg ++ r) = chunks64 msg ++ chunks64 (tail64 msg ++ r) := by
  have hle : msg.length / 64 * 64 ≤ msg.length := Nat.div_mul_le_self _ _
  have hmod : (msg.take (msg.length / 64 * 64)).length % 64 = 0 := by
    rw [List.length_take]; omega
  have hsplit : msg = msg.take (msg.length / 64 * 64) ++ tail64 msg :=
    (List.take_append_drop _ msg).symm
  have hA : chunks64 (msg ++ r)
      = chunks64 (msg.take (msg.length / 64 * 64)) ++ chunks64 (tail64 msg ++ r) := by
    conv_lhs => rw [hsplit]
    rw [List.append_assoc, chunks64_append _ hmod]
  have hB : chunks64 msg = chunks64 (msg.take (msg.length / 64 * 64)) := by
    conv_lhs => rw [hsplit]
    rw [chunks64_append _ hmod,
      chunks64_eq_nil (tail64 msg) (by rw [length_tail64]; omega), List.append_nil]
  rw [hA, ← hB]

lemma tail64_decomp (msg r : List Nat) : tail64 (msg ++ r) = tail64 (tail64 msg ++ r) := by
  have hle : msg.length / 64 * 64 ≤ msg.length := Nat.div_mul_le_self _ _
  have hmod : (msg.take (msg.length / 64 * 64)).length % 64 = 0 := by
    rw [List.length_take]; omega
  have hsplit : msg = msg.take (msg.length / 64 * 64) ++ tail64 msg :=
    (List.take_append_drop _ msg).symm
  conv_lhs => rw [hsplit]
  rw [List.append_assoc, tail64_append _ hmod]

/-- Master lemma for the update byte loop: starting from a buffer whose
first `idx` bytes are the pending tail `pend`, processing `data` compresses
exactly the complete blocks of `pend ++ data`, in order, leaves its residue
in the buffer, and advances the index accordingly. -/
lemma fillRun_spec (data : List Nat) :
    ∀ (pend st buf : List Nat) (idx : Nat) (tr : List (List Nat)),
      idx = pend.length → buf.length = 64 → idx < 64 → buf.take idx = pend →
      (fillRun { st := st, buf := buf, idx := idx, tr := tr } data).st
          = (chunks64 (pend ++ data)).foldl sm3_compress st ∧
      (fillRun { st := st, buf := buf, idx := idx, tr := tr } data).idx
          = (idx + data.length) % 64 ∧
      (fillRun { st := st, buf := buf, idx := idx, tr := tr } data).buf.length = 64 ∧
      (fillRun { st := st, buf := buf, idx := idx, tr := tr } data).buf.take
          ((idx + data.length) % 64) = tail64 (pend ++ data) ∧
      (fillRun { st := st, buf := buf, idx := idx, tr := tr } data).tr
          = tr ++ chunks64 (pend ++ data) := by
  induction data with
  | nil =>
    intro pend st buf idx tr hidx hbuf hlt htake
    have hnil : chunks64 (pend ++ []) = [] := by
      rw [List.append_nil]; exact chunks64_eq_nil pend (by omega)
    have htl : tail64 (pend ++ []) = pend := by
      rw [List.append_nil]; exact tail64_small pend (by omega)
    refine ⟨by rw [hnil]; rfl, ?_, ?_, ?_, by rw [hnil]; simp [fillRun]⟩
    · show idx = (idx + ([] : List Nat).length) % 64
      simp [Nat.mod_eq_of_lt hlt]
    · exact hbuf
    · show buf.take ((idx + ([] : List Nat).length) % 64) = _
      rw [htl]
      simpa [Nat.mod_eq_of_lt hlt] using htake
  | cons b data ih =>
    intro pend st buf idx tr hidx hbuf hlt htake
    have hstep : fillRun { st := st, buf := buf, idx := idx, tr := tr } (b :: data)
        = fillRun (fillByte { st := st, buf := buf, idx := idx, tr := tr } b) data := rfl
    by_cases hfull : idx + 1 = 64
    · have hbufset : buf.set idx b = pend ++ [b] := by
        rw [List.set_eq_take_cons_drop b (by omega), htake,
          List.drop_eq_nil_of_le (by omega)]
      have hfb : fillByte { st := st, buf := buf, idx := idx, tr := tr } b =
          { st := sm3_compress st (pend ++ [b]), buf := pend ++ [b], idx := 0,
            tr := tr ++ [pend ++ [b]] } := by
        simp [fillByte, hfull, hbufset]
      have hblk : (pend ++ [b]).length = 64 := by simp; omega
      have hmsg : pend ++ b :: data = (pend ++ [b]) ++ data := by simp
      have hch : chunks64 (pend ++ b :: data) = (pend ++ [b]) :: chunks64 data := by
        rw [hmsg]; exact chunks64_cons _ _ hblk
      have htl : tail64 (pend ++ b :: data) = tail64 data := by
        rw [hmsg]; exact tail64_append _ (by rw [hblk]) _
      obtain ⟨h1, h2, h3, h4, h5⟩ := ih [] (sm3_compress st (pend ++ [b])) (pend ++ [b]) 0
        (tr ++ [pend ++ [b]]) rfl hblk (by omega) (by simp)
      rw [hstep, hfb]
      refine ⟨?_, ?_, h3, ?_, ?_⟩
      · rw [h1, hch]; simp
      · rw [h2]
        show (0 + data.length) % 64 = (idx + (data.length + 1)) % 64
        omega
      · rw [show (idx + (b :: data).length) % 64 = (0 + data.length) % 64 from by simp; omega,
          h4, htl]
        simp
      · rw [h5, hch]; simp
    · have hsettk : (buf.set idx b).take (idx + 1) = pend ++ [b] := by
        rw [set_take_succ buf idx b (by omega), htake]
      have hfb : fillByte { st := st, buf := buf, idx := idx, tr := tr } b =
          { st := st, buf := buf.set idx b, idx := idx + 1, tr := tr } := by
        simp [fillByte, hfull]
      have hmsg : pend ++ b :: data = (pend ++ [b]) ++ data := by simp
      obtain ⟨h1, h2, h3, h4, h5⟩ := ih (pend ++ [b]) st (buf.set idx b) (idx + 1) tr
        (by simp; omega) (by simp [hbuf]) (by omega) hsettk
      rw [hstep, hfb]
      refine ⟨?_, ?_, h3, ?_, ?_⟩
      · rw [h1, hmsg]
      · rw [h2]; show (idx + 1 + data.length) % 64 = (idx + (data.length + 1)) % 64; omega
      · rw [show (idx + (b :: data).length) % 64 = (idx + 1 + data.length) % 64 from by
            simp; omega,
          h4, hmsg]
      · rw [h5, hmsg]

/-! The abstraction invariant, established for every reachable context. -/

lemma bitlen_idx (L : Nat) : L * 8 % M64 / 8 % 64 = L % 64 := by
  show L * 8 % 18446744073709551616 / 8 % 64 = L % 64
  omega

lemma Inv_init : Inv [] sm3_init := by
  refine ⟨?_, rfl, by simp [sm3_init], ?_⟩
  · show SM3_IV = absorbedState []
    rw [absorbedState, chunks64_eq_nil [] (by simp)]
    rfl
  · simp [sm3_init, tail64]

lemma Inv_update (msg : List Nat) (ctx : SM3_CTX) (h : Inv msg ctx) (data : List Nat) :
    Inv (msg ++ data) (sm3_update ctx data) := by
  obtain ⟨hst, hbl, hbuf, htk⟩ := h
  have hidx : ctx.bitlen / 8 % 64 = msg.length % 64 := by rw [hbl]; exact bitlen_idx _
  have hlt : msg.length % 64 < 64 := Nat.mod_lt _ (by omega)
  have hpend : msg.length % 64 = (tail64 msg).length := (length_tail64 msg).symm
  obtain ⟨h1, h2, h3, h4, h5⟩ := fillRun_spec data (tail64 msg) ctx.state ctx.buffer
    (msg.length % 64) [] hpend hbuf hlt (by rw [htk])
  rw [sm3_update_eq_fillRun, hidx]
  refine ⟨?_, ?_, h3, ?_⟩
  · show (fillRun _ data).st = absorbedState (msg ++ data)
    rw [h1, hst, absorbedState, absorbedState, chunks64_decomp msg data, List.foldl_append]
  · show (ctx.bitlen + data.length * 8) % M64 = (msg ++ data).length * 8 % M64
    rw [hbl, List.length_append]
    simp only [M64]
    omega
  · show (fillRun _ data).buf.take ((msg ++ data).length % 64) = tail64 (msg ++ data)
    rw [show (msg ++ data).length % 64 = (msg.length % 64 + data.length) % 64 from by
        rw [List.length_append]; omega,
      h4, tail64_decomp msg data]

lemma Inv_run (chunks : List (List Nat)) :
    ∀ (msg : List Nat) (ctx : SM3_CTX), Inv msg ctx →
      Inv (msg ++ chunks.flatten) (chunks.foldl sm3_update ctx) := by
  induction chunks with
  | nil => intro msg ctx h; simpa using h
  | cons c cs ih =>
    intro msg ctx h
    have h1 := ih (msg ++ c) (sm3_update ctx c) (Inv_update msg ctx h c)
    simpa [List.append_assoc] using h1

lemma Inv_reachable (ctx : SM3_CTX) (h : Reachable ctx) : ∃ msg, Inv msg ctx := by
  induction h with
  | init => exact ⟨[], Inv_init⟩
  | update ctx data _ ih =>
    obtain ⟨msg, hmsg⟩ := ih
    exact ⟨msg ++ data, Inv_update msg ctx hmsg data⟩

lemma finalizeSpec_congr (msg : List Nat) (c1 c2 : SM3_CTX)
    (h1 : Inv msg c1) (h2 : Inv msg c2) : finalizeSpec c1 = finalizeSpec c2 := by
  obtain ⟨hst1, hbl1, hbuf1, htk1⟩ := h1
  obtain ⟨hst2, hbl2, hbuf2, htk2⟩ := h2
  have hidx1 : c1.bitlen / 8 % 64 = msg.length % 64 := by rw [hbl1]; exact bitlen_idx _
  have hidx2 : c2.bitlen / 8 % 64 = msg.length % 64 := by rw [hbl2]; exact bitlen_idx _
  rw [finalizeSpec, finalizeSpec, hidx1, hidx2, htk1, htk2, hst1, hst2, hbl1, hbl2]

lemma final_congr (msg : List Nat) (c1 c2 : SM3_CTX)
    (h1 : Inv msg c1) (h2 : Inv msg c2) : sm3_final c1 = sm3_final c2 := by
  rw [final_eq_finalizeSpec c1 h1.2.2.1, final_eq_finalizeSpec c2 h2.2.2.1]
  exact finalizeSpec_congr msg c1 c2 h1 h2

/-! The pad-then-iterate hash of sm3.cpp, rephrased over `chunks64`. -/

lemma chunks64_single (m : List Nat) (h : m.length = 64) : chunks64 m = [m] := by
  have h1 := chunks64_cons m [] h
  rw [List.append_nil] at h1
  rw [h1, chunks64_eq_nil [] (by simp)]

lemma cpp_chunkLoop (n : Nat) :
    ∀ (m : List Nat), m.length = 64 * n → ∀ st,
      (List.range n).foldl (fun s i => SM3cpp.compress s ((m.drop (64 * i)).take 64)) st
        = (chunks64 m).foldl SM3cpp.compress st := by
  induction n with
  | zero => intro m hm st; rw [chunks64_eq_nil m (by omega)]; rfl
  | succ n ih =>
    intro m hm st
    have hch : chunks64 m = m.take 64 :: chunks64 (m.drop 64) := by
      rw [chunks64, dif_pos (by omega)]
    rw [hch, List.foldl_cons, List.range_succ_eq_map]
    simp only [List.foldl_cons, List.foldl_map, Nat.mul_zero, List.drop_zero]
    rw [← ih (m.drop 64) (by rw [List.length_drop]; omega)
      (SM3cpp.compress st (m.take 64))]
    refine List.foldl_ext _ _ _ (fun s i _ => ?_)
    rw [List.drop_drop, show 64 + 64 * i = 64 * (i + 1) from by omega]

lemma length_sm3_padding (input : List Nat) :
    (SM3cpp.sm3_padding input).length = (input.length + 1 + 8 + 64 - 1) / 64 * 64 := by
  simp only [SM3cpp.sm3_padding, List.length_append, List.length_cons, List.length_replicate,
    List.length_map, List.length_range, List.length_nil]
  omega

lemma cpp_hash_chunks (input : List Nat) :
    SM3cpp.sm3_hash input
      = serialize ((chunks64 (SM3cpp.sm3_padding input)).foldl sm3_compress SM3_IV) := by
  have hdvd : (SM3cpp.sm3_padding input).length
      = 64 * ((SM3cpp.sm3_padding input).length / 64) := by
    rw [length_sm3_padding]; omega
  simp only [SM3cpp.sm3_hash]
  rw [cpp_chunkLoop ((SM3cpp.sm3_padding input).length / 64) (SM3cpp.sm3_padding input)
    hdvd SM3_IV]
  refine congrArg serialize ?_
  exact List.foldl_ext _ _ _ (fun s c _ => cpp_compress_eq_c s c)

lemma lenBytes_cpp_eq (bl : Nat) :
    ((List.range 8).map fun i => bl >>> ((7 - i) * 8) &&& 0xFF) = lenBytesBE bl := rfl

lemma padding_split_small (input : List Nat) (h : input.length % 64 ≤ 55) :
    chunks64 (SM3cpp.sm3_padding input) =
      chunks64 input ++
        [tail64 input ++ ([0x80] ++ List.replicate (55 - input.length % 64) 0
          ++ lenBytesBE (input.length * 8 % M64))] := by
  have hcount : (input.length + 1 + 8 + 64 - 1) / 64 * 64 - input.length - 9
      = 55 - input.length % 64 := by omega
  have hpad : SM3cpp.sm3_padding input
      = input ++ ([0x80] ++ List.replicate (55 - input.length % 64) 0
          ++ lenBytesBE (input.length * 8 % M64)) := by
    simp only [SM3cpp.sm3_padding]
    rw [hcount, lenBytes_cpp_eq]
    simp [List.append_assoc]
  rw [hpad, chunks64_decomp input _]
  congr 1
  refine chunks64_single _ ?_
  simp only [List.length_append, length_tail64, List.length_cons, List.length_replicate,
    List.length_nil, lenBytesBE, List.length_map, List.length_range]
  omega

lemma padding_split_large (input : List Nat) (h : 56 ≤ input.length % 64) :
    chunks64 (SM3cpp.sm3_padding input) =
      chunks64 input ++
        [tail64 input ++ ([0x80] ++ List.replicate (63 - input.length % 64) 0),
         List.replicate 56 0 ++ lenBytesBE (input.length * 8 % M64)] := by
  have hlt : input.length % 64 < 64 := Nat.mod_lt _ (by omega)
  have hcount : (input.length + 1 + 8 + 64 - 1) / 64 * 64 - input.length - 9
      = 119 - input.length % 64 := by omega
  have hrep : List.replicate (119 - input.length % 64) (0 : Nat)
      = List.replicate (63 - input.length % 64) 0 ++ List.replicate 56 0 := by
    rw [← List.replicate_add]
    congr 1
    omega
  have hpad : SM3cpp.sm3_padding input
      = input ++ (([0x80] ++ List.replicate (63 - input.length % 64) 0)
          ++ (List.replicate 56 0 ++ lenBytesBE (input.length * 8 % M64))) := by
    simp only [SM3cpp.sm3_padding]
    rw [hcount, lenBytes_cpp_eq, hrep]
    simp [List.append_assoc]
  rw [hpad, chunks64_decomp input _]
  congr 1
  rw [← List.append_assoc]
  rw [chunks64_cons _ _ (by
    simp only [List.length_append, length_tail64, List.length_cons, List.length_replicate,
      List.length_nil]
    omega)]
  rw [chunks64_single _ (by
    simp only [List.length_append, List.length_replicate, lenBytesBE, List.length_map,
      List.length_range])]

lemma cpp_hash_eq_stream_hash (input : List Nat) :
    SM3cpp.sm3_hash input = sm3_hash input := by
  have hInv : Inv input (sm3_update sm3_init input) := by
    simpa using Inv_update [] sm3_init Inv_init input
  obtain ⟨hst, hbl, hbuf, htk⟩ := hInv
  have hidx : (sm3_update sm3_init input).bitlen / 8 % 64 = input.length % 64 := by
    rw [hbl]; exact bitlen_idx _
  rw [sm3_hash, final_eq_finalizeSpec _ hbuf, cpp_hash_chunks]
  simp only [finalizeSpec, hbl, bitlen_idx, htk, hst]
  by_cases hc : 56 < input.length % 64 + 1
  · rw [if_pos hc, padding_split_large input (by omega)]
    rw [List.foldl_append]
    simp only [List.foldl_cons, List.foldl_nil]
    rw [show (chunks64 input).foldl sm3_compress SM3_IV = absorbedState input from rfl]
    simp [List.append_assoc]
  · rw [if_neg hc, padding_split_small input (by omega)]
    rw [List.foldl_append]
    simp only [List.foldl_cons, List.foldl_nil]
    rw [show (chunks64 input).foldl sm3_compress SM3_IV = absorbedState input from rfl]
    simp [List.append_assoc]

/-! The compression trace of a whole run, and the zero-length update. -/

lemma updateT_trace (msg : List Nat) (ctx : SM3_CTX) (data : List Nat) (h : Inv msg ctx) :
    (sm3_updateT ctx data).2 = chunks64 (tail64 msg ++ data) := by
  obtain ⟨hst, hbl, hbuf, htk⟩ := h
  have hidx : ctx.bitlen / 8 % 64 = msg.length % 64 := by rw [hbl]; exact bitlen_idx _
  obtain ⟨_, _, _, _, h5⟩ := fillRun_spec data (tail64 msg) ctx.state ctx.buffer
    (msg.length % 64) [] (length_tail64 msg).symm hbuf (Nat.mod_lt _ (by omega)) (by rw [htk])
  show (fillRun ⟨ctx.state, ctx.buffer, ctx.bitlen / 8 % 64, []⟩ data).tr = _
  rw [hidx, h5, List.nil_append]

lemma runT_aux (chunks : List (List Nat)) :
    ∀ (msg : List Nat) (ctx : SM3_CTX) (tr : List (List Nat)), Inv msg ctx →
      (chunks.foldl (fun acc c => ((sm3_updateT acc.1 c).1, acc.2 ++ (sm3_updateT acc.1 c).2))
          (ctx, tr)).1 = chunks.foldl sm3_update ctx ∧
      (chunks.foldl (fun acc c => ((sm3_updateT acc.1 c).1, acc.2 ++ (sm3_updateT acc.1 c).2))
          (ctx, tr)).2 = tr ++ chunks64 (tail64 msg ++ chunks.flatten) := by
  induction chunks with
  | nil =>
    intro msg ctx tr h
    refine ⟨rfl, ?_⟩
    show tr = tr ++ chunks64 (tail64 msg ++ [])
    rw [List.append_nil, chunks64_eq_nil _ (by rw [length_tail64]; omega), List.append_nil]
  | cons c cs ih =>
    intro msg ctx tr h
    simp only [List.foldl_cons]
    rw [sm3_updateT_fst ctx c, updateT_trace msg ctx c h]
    obtain ⟨ih1, ih2⟩ := ih (msg ++ c) (sm3_update ctx c) (tr ++ chunks64 (tail64 msg ++ c))
      (Inv_update msg ctx h c)
    refine ⟨ih1, ?_⟩
    rw [ih2, List.append_assoc]
    refine congrArg (tr ++ ·) ?_
    rw [show tail64 msg ++ (c :: cs).flatten = (tail64 msg ++ c) ++ cs.flatten from by
      simp [List.append_assoc]]
    rw [chunks64_decomp (tail64 msg ++ c) cs.flatten, ← tail64_decomp]

lemma runT_spec (chunks : List (List Nat)) :
    (runT chunks).1 = chunks.foldl sm3_update sm3_init ∧
    (runT chunks).2 = chunks64 chunks.flatten := by
  obtain ⟨h1, h2⟩ := runT_aux chunks [] sm3_init [] Inv_init
  refine ⟨h1, ?_⟩
  rw [runT, h2]
  rw [show tail64 [] = ([] : List Nat) from rfl]
  simp

lemma update_nil (ctx : SM3_CTX) (h : ctx.bitlen < M64) : sm3_update ctx [] = ctx := by
  show ({ ctx with
    bitlen := (ctx.bitlen + ([] : List Nat).length * 8) % M64 } : SM3_CTX) = ctx
  rw [show (ctx.bitlen + ([] : List Nat).length * 8) % M64 = ctx.bitlen from by
    simp [Nat.mod_eq_of_lt h]]

lemma updateT_nil_trace (ctx : SM3_CTX) : (sm3_updateT ctx []).2 = [] := rfl

/-! The checked loops succeed on every in-range context. -/

lemma updByte_bounds (ctx1 : SM3_CTX) (idx : Nat) (b : Nat) (h1 : idx < 64)
    (h2 : ctx1.buffer.length = 64) :
    (updByte (ctx1, idx) b).2 < 64 ∧ (updByte (ctx1, idx) b).1.buffer.length = 64 := by
  by_cases hfull : idx + 1 = 64 <;> simp [updByte, hfull, h2] <;> omega

lemma foldl_updByteC_some (data : List Nat) :
    ∀ (ctx1 : SM3_CTX) (idx : Nat), idx < 64 → ctx1.buffer.length = 64 →
      data.foldl updByteC (some (ctx1, idx)) = some (data.foldl updByte (ctx1, idx)) := by
  induction data with
  | nil => intro ctx1 idx h1 h2; rfl
  | cons b data ih =>
    intro ctx1 idx h1 h2
    have hset : setC ctx1.buffer idx b = some (ctx1.buffer.set idx b) := by
      rw [setC, if_pos (by omega)]
    have hstep : updByteC (some (ctx1, idx)) b = some (updByte (ctx1, idx) b) := by
      by_cases hfull : idx + 1 = 64 <;> simp [updByteC, updByte, hset, hfull]
    simp only [List.foldl_cons, hstep]
    obtain ⟨hb1, hb2⟩ := updByte_bounds ctx1 idx b h1 h2
    exact ih (updByte (ctx1, idx) b).1 (updByte (ctx1, idx) b).2 hb1 hb2

lemma sm3_updateC_some (ctx : SM3_CTX) (data : List Nat) (hbuf : ctx.buffer.length = 64) :
    sm3_updateC ctx data = some (sm3_update ctx data) := by
  show (data.foldl updByteC (some ({ ctx with
      bitlen := (ctx.bitlen + data.length * 8) % M64 }, ctx.bitlen / 8 % 64))).map
        (fun a => a.1) = _
  rw [foldl_updByteC_some data _ _ (Nat.mod_lt _ (by omega)) (by simpa using hbuf)]
  rfl

lemma length_zeroFillTo (n : Nat) : ∀ (bound idx : Nat) (buf : List Nat), bound - idx = n →
    (zeroFillTo bound buf idx).length = buf.length := by
  induction n with
  | zero =>
    intro bound idx buf hn
    rw [zeroFillTo, if_neg (by omega)]
  | succ n ih =>
    intro bound idx buf hn
    rw [zeroFillTo, if_pos (by omega)]
    rw [ih bound (idx + 1) (buf.set idx 0) (by omega)]
    simp

lemma zeroFillToC_some (n : Nat) : ∀ (bound idx : Nat) (buf : List Nat), bound - idx = n →
    bound ≤ buf.length → zeroFillToC bound buf idx = some (zeroFillTo bound buf idx) := by
  induction n with
  | zero =>
    intro bound idx buf hn hb
    rw [zeroFillToC, zeroFillTo, if_neg (by omega), if_neg (by omega)]
  | succ n ih =>
    intro bound idx buf hn hb
    rw [zeroFillToC, zeroFillTo, if_pos (by omega), if_pos (by omega)]
    rw [show setC buf idx 0 = some (buf.set idx 0) from by rw [setC, if_pos (by omega)]]
    exact ih bound (idx + 1) (buf.set idx 0) (by omega) (by simpa using hb)

lemma writeLenBEC_fold_some (bl : Nat) (is : List Nat) :
    ∀ (buf : List Nat), buf.length = 64 → (∀ i ∈ is, 56 + i < 64) →
      is.foldl (fun b i => b.bind (fun l => setC l (56 + i) ((bl >>> (56 - 8 * i)) &&& 0xff)))
          (some buf)
        = some (is.foldl (fun b i => b.set (56 + i) ((bl >>> (56 - 8 * i)) &&& 0xff)) buf) := by
  induction is with
  | nil => intro buf hb hm; rfl
  | cons i is ih =>
    intro buf hb hm
    simp only [List.foldl_cons, Option.some_bind]
    rw [show setC buf (56 + i) ((bl >>> (56 - 8 * i)) &&& 0xff)
        = some (buf.set (56 + i) ((bl >>> (56 - 8 * i)) &&& 0xff)) from by
      rw [setC, if_pos (by rw [hb]; exact hm i (by simp))]]
    exact ih _ (by simpa using hb) (fun j hj => hm j (by simp [hj]))

lemma writeLenBEC_some (bl : Nat) (buf : List Nat) (hbuf : buf.length = 64) :
    writeLenBEC bl buf = some (writeLenBE bl buf) := by
  rw [writeLenBEC, writeLenBE]
  exact writeLenBEC_fold_some bl (List.range 8) buf hbuf
    (fun i hi => by have := List.mem_range.mp hi; omega)

lemma sm3_finalC_some (ctx : SM3_CTX) (hbuf : ctx.buffer.length = 64) :
    sm3_finalC ctx = some (sm3_final ctx) := by
  have hidx : ctx.bitlen / 8 % 64 < 64 := Nat.mod_lt _ (by omega)
  set i0 := ctx.bitlen / 8 % 64 with hi0
  have hset : setC ctx.buffer i0 0x80 = some (ctx.buffer.set i0 0x80) := by
    rw [setC, if_pos (by omega)]
  have hsetlen : (ctx.buffer.set i0 0x80).length = 64 := by simpa using hbuf
  by_cases hc : 56 < i0 + 1
  · have hz64 : zeroFillToC 64 (ctx.buffer.set i0 0x80) (i0 + 1)
        = some (zeroFillTo 64 (ctx.buffer.set i0 0x80) (i0 + 1)) :=
      zeroFillToC_some (64 - (i0 + 1)) 64 (i0 + 1) _ rfl (by rw [hsetlen])
    have hzlen : (zeroFillTo 64 (ctx.buffer.set i0 0x80) (i0 + 1)).length = 64 := by
      rw [length_zeroFillTo (64 - (i0 + 1)) _ _ _ rfl]; exact hsetlen
    have hz56 : zeroFillToC 56 (zeroFillTo 64 (ctx.buffer.set i0 0x80) (i0 + 1)) 0
        = some (zeroFillTo 56 (zeroFillTo 64 (ctx.buffer.set i0 0x80) (i0 + 1)) 0) :=
      zeroFillToC_some 56 56 0 _ rfl (by rw [hzlen]; omega)
    have hw : writeLenBEC ctx.bitlen
          (zeroFillTo 56 (zeroFillTo 64 (ctx.buffer.set i0 0x80) (i0 + 1)) 0)
        = some (writeLenBE ctx.bitlen
          (zeroFillTo 56 (zeroFillTo 64 (ctx.buffer.set i0 0x80) (i0 + 1)) 0)) :=
      writeLenBEC_some _ _ (by rw [length_zeroFillTo 56 56 0 _ rfl]; exact hzlen)
    simp only [sm3_finalC, sm3_final, ← hi0, hset, if_pos hc, hz64, Option.map_some', hz56, hw]
  · have hz56 : zeroFillToC 56 (ctx.buffer.set i0 0x80) (i0 + 1)
        = some (zeroFillTo 56 (ctx.buffer.set i0 0x80) (i0 + 1)) :=
      zeroFillToC_some (56 - (i0 + 1)) 56 (i0 + 1) _ rfl (by rw [hsetlen]; omega)
    have hw : writeLenBEC ctx.bitlen (zeroFillTo 56 (ctx.buffer.set i0 0x80) (i0 + 1))
        = some (writeLenBE ctx.bitlen (zeroFillTo 56 (ctx.buffer.set i0 0x80) (i0 + 1))) :=
      writeLenBEC_some _ _ (by
        rw [length_zeroFillTo (56 - (i0 + 1)) _ _ _ rfl]; exact hsetlen)
    simp only [sm3_finalC, sm3_final, ← hi0, hset, if_neg hc, hz56, hw]


/-! Concrete evaluation of the two known-answer hashes, staged through
precomputed schedules and round results so that each step is shallow. -/

/-- The single padding block of the empty message. -/
def emptyPadBlock : List Nat := [0x80] ++ List.replicate 55 0 ++ List.replicate 8 0

/-- The single padding block of the message "abc". -/
def abcPadBlock : List Nat :=
  [0x61, 0x62, 0x63, 0x80] ++ List.replicate 52 0 ++ [0, 0, 0, 0, 0, 0, 0, 24]

/-- Message schedule of the empty-message padding block, precomputed. -/
def Wempty : List Nat :=
  [2147483648, 0, 0, 0, 0, 0, 0, 0, 0, 0, 0, 0, 0, 0, 0, 0, 2151694336, 0, 0, 268455936, 0, 0, 
   2891209732, 0, 0, 2684366848, 0, 0, 2756728836, 538968128, 0, 822105344, 2684362752, 0, 
   2060809680, 168690198, 0, 2852152064, 536870912, 0, 2052404624, 572653636, 268443664, 
   2467321168, 2852135424, 335545344, 2885225305, 1217980537, 2689617920, 2862626352, 
   2181038080, 134244352, 599083869, 1644306500, 2974839313, 673253469, 2862621216, 2168455232, 
   1144951137, 2659683473, 168101120, 680679483, 673185792, 8390272, 2352888097, 1143087616, 
   185935665, 1888620757]

/-- Derived words of the empty-message padding block, precomputed. -/
def W1empty : List Nat :=
  [2147483648, 0, 0, 0, 0, 0, 0, 0, 0, 0, 0, 0, 2151694336, 0, 0, 268455936, 2151694336, 0, 
   2891209732, 268455936, 0, 2684366848, 2891209732, 0, 2756728836, 2149593152, 0, 822105344, 
   72382468, 538968128, 2060809680, 990795542, 2684362752, 2852152064, 1523938768, 168690198, 
   2052404624, 2283955012, 805314576, 2467321168, 3495237520, 908198980, 3153668937, 
   3683171625, 173044224, 3198169648, 704187225, 1083736185, 2212830045, 3366065780, 860910097, 
   539058269, 2299881853, 3812761604, 4117685104, 3064366284, 2695178016, 2849134715, 
   1813942625, 2651294225, 2252028961, 1823504955, 590686001, 1880233557]

/-- Working registers after the 64 rounds on the empty-message padding
block, precomputed. -/
def regsEmpty : Regs :=
  { A := 1764887532, B := 484119494, C := 2571459487, D := 3949075599,
    E := 2345793659, F := 1053803486, G := 2640173990, H := 3766068325 }

/-- Hash state after compressing the empty-message padding block. -/
def stateEmpty : List Nat :=
  [447880579, 1439670655, 2388728136, 837294735, 582928583, 687799156, 2127574507, 1350740523]

/-- Message schedule of the "abc" padding block, precomputed. -/
def Wabc : List Nat :=
  [1633837952, 0, 0, 0, 0, 0, 0, 0, 0, 0, 0, 0, 0, 0, 0, 24, 2425545216, 0, 787974, 1906077933, 
   0, 2147581983, 2476703145, 0, 745513465, 2913660692, 0, 98334, 2593546121, 1232142408, 
   600737441, 3000053531, 3789218616, 4161148935, 90007742, 2261767297, 524582275, 3640802751, 
   408459488, 3758495751, 84800860, 3454013516, 2780416341, 2816409988, 1850133768, 3820666360, 
   1892328482, 55816016, 2838346913, 1597231058, 3782176393, 4145015105, 3394527964, 
   2242445650, 1991205526, 3374497202, 1748471029, 2539148100, 151029539, 2264591988, 
   716769456, 1248115792, 2253286920, 4034815376, 844926840, 2899017745, 3776821725, 
   3114009925]

/-- Derived words of the "abc" padding block, precomputed. -/
def W1abc : List Nat :=
  [1633837952, 0, 0, 0, 0, 0, 0, 0, 0, 0, 0, 24, 2425545216, 0, 787974, 1906077941, 2425545216, 
   2147581983, 2475916207, 1906077933, 745513465, 766209803, 2476703145, 98334, 3069836912, 
   3839618908, 600737441, 3000020741, 2068626609, 2977372239, 647228959, 874445722, 4271808187, 
   553919928, 486928478, 1724501126, 441026783, 350367219, 3185660341, 1205410179, 1800091732, 
   777694644, 3581111671, 2760683220, 3345707433, 3163124266, 2443561643, 4099687953, 
   1668931197, 3667578496, 2545945631, 1043158259, 2724458025, 317805078, 2142234037, 
   1339577286, 1116636229, 3711758100, 2404313387, 1988398052, 417695688, 3870243905, 
   1733547989, 1239572693]

/-- Working registers after the 64 rounds on the "abc" padding block,
precomputed. -/
def regsAbc : Regs :=
  { A := 357033627, B := 737828704, C := 3335952060, D := 110813922,
    E := 3892900923, F := 1254346504, G := 3404746342, H := 1068541614 }

/-- Hash state after compressing the "abc" padding block. -/
def stateAbc : List Nat :=
  [1724379380, 1659825625, 3522352235, 3692094690, 1097319559, 1559426978, 696098859, 
   2404100320]

lemma sm3_compress_eval (st blk w w1 : List Nat) (r0 r : Regs)
    (hw : Wlist blk = w) (hw1 : W1list w = w1)
    (hr0 : ({ A := st.getD 0 0, B := st.getD 1 0, C := st.getD 2 0, D := st.getD 3 0,
              E := st.getD 4 0, F := st.getD 5 0, G := st.getD 6 0, H := st.getD 7 0 } : Regs)
            = r0)
    (hr : (List.range 64).foldl (roundStep w w1) r0 = r) :
    sm3_compress st blk =
      [st.getD 0 0 ^^^ r.A, st.getD 1 0 ^^^ r.B, st.getD 2 0 ^^^ r.C, st.getD 3 0 ^^^ r.D,
       st.getD 4 0 ^^^ r.E, st.getD 5 0 ^^^ r.F, st.getD 6 0 ^^^ r.G, st.getD 7 0 ^^^ r.H] := by
  subst hw hw1 hr0 hr
  rfl

set_option maxRecDepth 4000 in
lemma compress_empty : sm3_compress SM3_IV emptyPadBlock = stateEmpty := by
  rw [sm3_compress_eval SM3_IV emptyPadBlock Wempty W1empty
    { A := 0x7380166f, B := 0x4914b2b9, C := 0x172442d7, D := 0xda8a0600,
      E := 0xa96f30bc, F := 0x163138aa, G := 0xe38dee4d, H := 0xb0fb0e4e }
    regsEmpty (by decide) (by decide) (by decide) (by decide)]
  decide

set_option maxRecDepth 4000 in
lemma compress_abc : sm3_compress SM3_IV abcPadBlock = stateAbc := by
  rw [sm3_compress_eval SM3_IV abcPadBlock Wabc W1abc
    { A := 0x7380166f, B := 0x4914b2b9, C := 0x172442d7, D := 0xda8a0600,
      E := 0xa96f30bc, F := 0x163138aa, G := 0xe38dee4d, H := 0xb0fb0e4e }
    regsAbc (by decide) (by decide) (by decide) (by decide)]
  decide

set_option maxRecDepth 4000 in
lemma hash_empty_block :
    sm3_hash [] = serialize (sm3_compress SM3_IV emptyPadBlock) := by
  rw [show sm3_hash [] = sm3_final (sm3_update sm3_init []) from rfl,
    final_eq_finalizeSpec _ (by decide)]
  exact congrArg (fun b => serialize (sm3_compress SM3_IV b)) (by decide)

set_option maxRecDepth 4000 in
lemma hash_abc_block :
    sm3_hash [0x61, 0x62, 0x63] = serialize (sm3_compress SM3_IV abcPadBlock) := by
  rw [show sm3_hash [0x61, 0x62, 0x63]
      = sm3_final (sm3_update sm3_init [0x61, 0x62, 0x63]) from rfl,
    final_eq_finalizeSpec _ (by decide)]
  exact congrArg (fun b => serialize (sm3_compress SM3_IV b)) (by decide)

lemma hash_empty_eval : sm3_hash [] = serialize stateEmpty := by
  rw [hash_empty_block, compress_empty]

lemma hash_abc_eval : sm3_hash [0x61, 0x62, 0x63] = serialize stateAbc := by
  rw [hash_abc_block, compress_abc]

lemma hash_string_eval (input : List Nat) :
    sm3_hash_string input = ⟨((sm3_hash input).map hexByte).flatten⟩ := rfl

lemma length_serialize (st : List Nat) : (serialize st).length = 32 := rfl

end SM3

/-! Claim theorems. -/

/-- C1: for every 64-byte block and every 8-word state, the compression
function (both `sm3_compress` of sm3.c and `compress` of sm3.cpp) computes
the new state exactly as the specification describes: big-endian parsing
into `W[0..15]`, extension to `W[16..67]` by the `P1` recurrence, derived
words `W1[i] = W[i] XOR W[i+4]`, 64 rounds with `FF`/`GG` switching from
XOR to majority/choice at round 16 and a simultaneous register update, and
final state word `i` = old word `i` XOR working variable `i`, all on
32-bit words modulo 2^32. -/
theorem c1_compress_matches_spec (st blk : List Nat) :
    SM3.sm3_compress st blk = SM3.compressSpec st blk ∧
    SM3cpp.compress st blk = SM3.compressSpec st blk :=
  ⟨SM3.sm3_compress_eq_spec st blk, SM3.cpp_compress_eq_spec st blk⟩

/-- C2: the claim says the round-constant rotation uses amount `j mod 32`,
well-defined for all 64 rounds.  The source instead computes
`ROTLEFT(SM3_T[j], j)`, whose literal C semantics
`(x << j) | (x >> (32 - j))` on `uint32_t` is undefined whenever a shift
count leaves [0,32): at `j = 32` the left shift count is 32, and already at
`j = 0` the right shift count is 32.  The well-defined mod-32 rotation the
claim describes (rotate by 0 at `j = 32`) differs: it is total and fixes
the constant. -/
theorem c2_literal_rotation_undefined :
    SM3.ROTLEFT_c (SM3.SM3_T 32) 32 = none ∧
    SM3.ROTLEFT_c (SM3.SM3_T 0) 0 = none ∧
    SM3.rotl (SM3.SM3_T 32) (32 % 32) = SM3.SM3_T 32 ∧
    SM3.ROTLEFT_c (SM3.SM3_T 7) 7 = some (SM3.rotl (SM3.SM3_T 7) 7) := by
  refine ⟨by decide, by decide, by decide, by decide⟩

/-- C3 counterexample: the one-shot hex hash of "abc" does not equal the
65-character string given in the specification (nor does the empty-string
hash equal its 63-character string). -/
theorem c3_spec_vectors_wrong :
    ¬ (SM3.sm3_hash_string [] =
        "1ab21d8355cfa17f8e61194831e81a8f22bec8c728fefb747ed035eb5082aa2" ∧
       SM3.sm3_hash_string [0x61, 0x62, 0x63] =
        "66c7f0f462eeedd9d1f2d46bde9ab1e15cf6d0cbb56d5d4cf0f7c7c0c6c8e01d8") := by
  intro h
  have h1 := h.1
  rw [SM3.hash_string_eval, SM3.hash_empty_eval] at h1
  exact absurd h1 (by decide)

/-- C3 amended: the one-shot lowercase-hex hash of the empty string and of
"abc" equal the standard SM3 test vectors as actually computed by the
code. -/
theorem c3_known_answer_hashes :
    SM3.sm3_hash_string [] =
      "1ab21d8355cfa17f8e61194831e81a8f22bec8c728fefb747ed035eb5082aa2b" ∧
    SM3.sm3_hash_string [0x61, 0x62, 0x63] =
      "66c7f0f462eeedd9d1f2d46bdc10e4e24167c4875cf2f7a2297da02b8f4ba8e0" := by
  constructor
  · rw [SM3.hash_string_eval, SM3.hash_empty_eval]
    decide
  · rw [SM3.hash_string_eval, SM3.hash_abc_eval]
    decide

/-- C4: for every reachable context, `sm3_final` behaves exactly as the
declarative finalization: 0x80 appended at `idx = bit_count/8 mod 64`, an
extra compression on a zero-filled block exactly when `idx+1 > 56` (two
compressions then, one otherwise), the unmodified accumulated bit count
written big-endian into bytes 56..63 of the block compressed last, and the
8 state words serialized as 32 big-endian bytes. -/
theorem c4_finalize_matches_spec (ctx : SM3.SM3_CTX) (h : SM3.Reachable ctx) :
    SM3.sm3_final ctx = SM3.finalizeSpec ctx := by
  obtain ⟨msg, hInv⟩ := SM3.Inv_reachable ctx h
  exact SM3.final_eq_finalizeSpec ctx hInv.2.2.1

/-- C4 witness: the freshly initialized context is reachable and satisfies
the finalization characterization. -/
theorem c4_finalize_matches_spec_witness :
    SM3.Reachable SM3.sm3_init ∧ SM3.sm3_final SM3.sm3_init = SM3.finalizeSpec SM3.sm3_init :=
  ⟨SM3.Reachable.init, c4_finalize_matches_spec SM3.sm3_init SM3.Reachable.init⟩

/-- C5: for every way of splitting an input into chunks, init followed by
one update per chunk in order followed by finalize produces the same
32-byte digest as init, one update on the whole input, finalize. -/
theorem c5_incremental_equivalence (chunks : List (List Nat)) :
    SM3.sm3_final (chunks.foldl SM3.sm3_update SM3.sm3_init)
      = SM3.sm3_final (SM3.sm3_update SM3.sm3_init chunks.flatten) := by
  have h1 : SM3.Inv chunks.flatten (chunks.foldl SM3.sm3_update SM3.sm3_init) := by
    simpa using SM3.Inv_run chunks [] SM3.sm3_init SM3.Inv_init
  have h2 : SM3.Inv chunks.flatten (SM3.sm3_update SM3.sm3_init chunks.flatten) := by
    simpa using SM3.Inv_update [] SM3.sm3_init SM3.Inv_init chunks.flatten
  exact SM3.final_congr chunks.flatten _ _ h1 h2

/-- C6: after init and any sequence of updates, `bit_count/8 mod 64`
equals the number of unprocessed bytes pending in the buffer, those bytes
are exactly the tail of the input stream not yet compressed, and the
compression trace is exactly the list of complete 64-byte input blocks in
input order, each compressed once. -/
theorem c6_pending_invariant_and_trace (chunks : List (List Nat)) :
    (SM3.runT chunks).1.bitlen / 8 % 64 = (SM3.tail64 chunks.flatten).length ∧
    (SM3.runT chunks).1.buffer.take ((SM3.runT chunks).1.bitlen / 8 % 64)
      = SM3.tail64 chunks.flatten ∧
    (SM3.runT chunks).2 = SM3.chunks64 chunks.flatten := by
  obtain ⟨h1, h2⟩ := SM3.runT_spec chunks
  have hInv : SM3.Inv chunks.flatten (chunks.foldl SM3.sm3_update SM3.sm3_init) := by
    simpa using SM3.Inv_run chunks [] SM3.sm3_init SM3.Inv_init
  obtain ⟨hst, hbl, hbuf, htk⟩ := hInv
  have hidx : (SM3.runT chunks).1.bitlen / 8 % 64 = chunks.flatten.length % 64 := by
    rw [h1, hbl]; exact SM3.bitlen_idx _
  refine ⟨?_, ?_, h2⟩
  · rw [hidx, SM3.length_tail64]
  · rw [hidx, h1, htk]

/-- C7: hashing the empty input produces the digest of a single padding
block with 0x80 at offset 0, zeros through byte 55 and a zero 64-bit
length, and the digest has exactly 32 bytes for every input. -/
theorem c7_empty_input_and_digest_length :
    SM3.sm3_hash [] = SM3.serialize (SM3.sm3_compress SM3.SM3_IV
      ([0x80] ++ List.replicate 55 0 ++ List.replicate 8 0)) ∧
    ∀ input : List Nat, (SM3.sm3_hash input).length = 32 := by
  constructor
  · exact SM3.hash_empty_block
  · intro input
    show (SM3.serialize _).length = 32
    exact SM3.length_serialize _

/-- C8: the streaming one-shot hash of sm3.c and the pad-then-iterate
one-shot hash of sm3.cpp produce identical 32-byte digests on every
input. -/
theorem c8_streaming_equals_pad_then_iterate (input : List Nat) :
    SM3.sm3_hash input = SM3cpp.sm3_hash input :=
  (SM3.cpp_hash_eq_stream_hash input).symm

/-- C9: updating with a zero-length input leaves the context (state words,
bit count, pending buffer) unchanged and invokes no compression. -/
theorem c9_zero_length_update_identity (ctx : SM3.SM3_CTX) (h : ctx.bitlen < SM3.M64) :
    SM3.sm3_update ctx [] = ctx ∧ (SM3.sm3_updateT ctx []).2 = [] :=
  ⟨SM3.update_nil ctx h, SM3.updateT_nil_trace ctx⟩

/-- C9 witness: the initial context has an in-range bit count, a
zero-length update leaves it unchanged and compresses nothing. -/
theorem c9_zero_length_update_identity_witness :
    SM3.sm3_init.bitlen < SM3.M64 ∧
    (SM3.sm3_update SM3.sm3_init [] = SM3.sm3_init ∧
     (SM3.sm3_updateT SM3.sm3_init []).2 = []) :=
  ⟨by decide, c9_zero_length_update_identity SM3.sm3_init (by decide)⟩

/-- C10: from every reachable context, every buffer write performed by
update and by finalize is in bounds: the checked variants, in which an
out-of-bounds store fails, succeed and agree with the unchecked code. -/
theorem c10_buffer_writes_in_bounds (ctx : SM3.SM3_CTX) (h : SM3.Reachable ctx) :
    (∀ data, SM3.sm3_updateC ctx data = some (SM3.sm3_update ctx data)) ∧
    SM3.sm3_finalC ctx = some (SM3.sm3_final ctx) := by
  obtain ⟨msg, hInv⟩ := SM3.Inv_reachable ctx h
  exact ⟨fun data => SM3.sm3_updateC_some ctx data hInv.2.2.1,
    SM3.sm3_finalC_some ctx hInv.2.2.1⟩

/-- C10 witness: the initial context is reachable, and the checked update
and finalize succeed on it. -/
theorem c10_buffer_writes_in_bounds_witness :
    SM3.Reachable SM3.sm3_init ∧
    SM3.sm3_updateC SM3.sm3_init [1, 2, 3] = some (SM3.sm3_update SM3.sm3_init [1, 2, 3]) ∧
    SM3.sm3_finalC SM3.sm3_init = some (SM3.sm3_final SM3.sm3_init) :=
  ⟨SM3.Reachable.init,
   (c10_buffer_writes_in_bounds SM3.sm3_init SM3.Reachable.init).1 [1, 2, 3],
   (c10_buffer_writes_in_bounds SM3.sm3_init SM3.Reachable.init).2⟩
